import Mathlib

/-!
Verification development for the chunked date-range event cache of the
DLC-Sentry-API-Report repository (`fetch_payment_data.js`, the report
processor, and their helpers).

Modelling conventions (shallow embedding):

* Calendar dates are modelled as `Nat` day numbers (days since an arbitrary
  epoch).  All date handling in the source operates at day granularity on
  `YYYY-MM-DD` strings (`formatDate`, `parseDate`) or on UTC-midnight `Date`
  objects, and lexicographic order on `YYYY-MM-DD` strings agrees with
  chronological order, so `Nat` comparison is a faithful model of every date
  comparison in the source.
* JavaScript `x || y` on strings is falsy for both `undefined`/`null` and the
  empty string; we model optional string fields as `Option String` and the
  `||` operator as `jsStringOr` below, which treats `some ""` as falsy.
* The file-system directory of chunk files is modelled as a `List Chunk` in
  directory-listing order (the order `fs.readdirSync` happens to return,
  which the OS does not guarantee to be sorted).
-/

set_option maxRecDepth 8192

namespace DLCReport

/-- Days per cache chunk: `CHUNK_DAYS = 30` in `fetch_payment_data.js`. -/
def CHUNK_DAYS : Nat := 30

/-- Loop body of `getDateRanges` (`fetch_payment_data.js` lines 52-71).
The source runs `while (currentStart < endDate)`, each iteration emitting the
window `[currentStart, min(currentStart + chunkDays - 1, endDate)]` and
advancing `currentStart` past the emitted window.  With `chunkDays ≥ 1` every
iteration advances `currentStart` by at least one day, so the loop performs at
most `endDate - startDate` iterations; the `fuel` argument makes that bound
explicit so the model is a structurally recursive (hence executable)
function.  (For `chunkDays = 0` the source loop would not terminate; no call
site uses anything but 7 or 30.) -/
def getDateRangesAux (endDate chunkDays : Nat) : Nat → Nat → List (Nat × Nat)
  | 0, _ => []
  | fuel + 1, currentStart =>
    if currentStart < endDate then
      let currentEnd :=
        if currentStart + chunkDays - 1 > endDate then endDate
        else currentStart + chunkDays - 1
      (currentStart, currentEnd) ::
        getDateRangesAux endDate chunkDays fuel (currentEnd + 1)
    else []

/-- `getDateRanges(startDate, endDate, chunkDays)` from
`fetch_payment_data.js` lines 52-71: the Window Planner.  Windows are
inclusive `(start, end)` day pairs. -/
def getDateRanges (startDate endDate chunkDays : Nat) : List (Nat × Nat) :=
  getDateRangesAux endDate chunkDays (endDate - startDate) startDate

example :
    getDateRanges 0 30 7 = [(0, 6), (7, 13), (14, 20), (21, 27), (28, 30)] := by
  decide

example : getDateRanges 0 30 30 = [(0, 29)] := by decide

example : getDateRanges 5 5 30 = [] := by decide

/-- JavaScript `a || b` on an optional string `a`: both a missing/null field
and the empty string are falsy, anything else short-circuits to `a`. -/
def jsStringOr (a : Option String) (b : String) : String :=
  match a with
  | some s => if s = "" then b else s
  | none => b

/-- JavaScript `a || b` where both operands are optional strings and the
result may itself be absent (used for `event.id || event.eventID`). -/
def jsOptOr (a b : Option String) : Option String :=
  match a with
  | some s => if s = "" then b else some s
  | none => b

/-- JavaScript `event.dateCreated || event.dateReceived` with the date
strings modelled as `Option Nat` day numbers (`none` covers an absent, null
or empty date string, all of which are falsy). -/
def jsOptOrNat (a b : Option Nat) : Option Nat :=
  match a with
  | some x => some x
  | none => b

/-- The `user` object of an upstream Sentry event: the three fields the
source consults, each possibly absent. -/
structure SentryUser where
  id : Option String
  email : Option String
  ip_address : Option String
deriving DecidableEq

/-- One entry of an upstream event's `tags` array. -/
structure SentryTag where
  key : String
  value : Option String
deriving DecidableEq

/-- The parts of an upstream Sentry event that the source reads, with dates
at day granularity. -/
structure RawEvent where
  id : Option String
  eventID : Option String
  dateCreated : Option Nat
  dateReceived : Option Nat
  user : Option SentryUser
  tags : List SentryTag
deriving DecidableEq

/-- The reduced per-event projection persisted in a chunk
(`extractMinimalEventData`, `fetch_payment_data.js` lines 153-190).
`timestamp` is the event date at day granularity (the reader compares only
the `YYYY-MM-DD` part). -/
structure MinimalEvent where
  timestamp : Nat
  eventId : Option String
  userId : String
  paymentErrorReason : Option String
  merchant_id : Option String
  customerId : Option String
  storeState : Option String
  storeId : Option String
deriving DecidableEq

/-- User-identifier resolution from `fetch_payment_data.js` lines 154-155:
`const user = event.user || {}; const userId = user.id || user.email ||
user.ip_address || 'anonymous';`. -/
def resolveUserId (user : Option SentryUser) : String :=
  let u := user.getD ⟨none, none, none⟩
  jsStringOr u.id (jsStringOr u.email (jsStringOr u.ip_address "anonymous"))

/-- The tag loop of the `payment_error` branch of `extractMinimalEventData`
(lines 164-178): each recognised tag key overwrites the corresponding field,
later occurrences winning. -/
def applyErrorTags : MinimalEvent → List SentryTag → MinimalEvent
  | m, [] => m
  | m, t :: ts =>
    let m' :=
      if t.key = "paymentErrorReason" then
        { m with paymentErrorReason := some (jsStringOr t.value "Unknown") }
      else if t.key = "merchant_id" then { m with merchant_id := t.value }
      else if t.key = "customerId" then { m with customerId := t.value }
      else if t.key = "storeState" then { m with storeState := t.value }
      else if t.key = "storeId" then { m with storeId := t.value }
      else m
    applyErrorTags m' ts

/-- The tag loop of the `payment_success` branch (lines 179-187): the first
`merchant_id` tag wins (`break`). -/
def findSuccessMerchant : List SentryTag → Option String
  | [] => none
  | t :: ts =>
    if t.key = "merchant_id" then some (jsStringOr t.value "Unknown")
    else findSuccessMerchant ts

/-- `extractMinimalEventData(event, issueType)` from `fetch_payment_data.js`
lines 153-190.  `now` stands for `new Date().toISOString()`, the timestamp
fallback used when the event carries no date. -/
def extractMinimalEventData (now : Nat) (issueType : String)
    (event : RawEvent) : MinimalEvent :=
  let base : MinimalEvent :=
    { timestamp := (jsOptOrNat event.dateCreated event.dateReceived).getD now
      eventId := jsOptOr event.id event.eventID
      userId := resolveUserId event.user
      paymentErrorReason := none
      merchant_id := none
      customerId := none
      storeState := none
      storeId := none }
  if issueType = "payment_error" then applyErrorTags base event.tags
  else if issueType = "payment_success" then
    match findSuccessMerchant event.tags with
    | some v => { base with merchant_id := some v }
    | none => base
  else base

/-- The per-page filter of `fetchDateRangeChunk` (`fetch_payment_data.js`
lines 216-228): keep an event only when it has a date
(`dateCreated || dateReceived`) and that date lies within the window's
bounds, projecting kept events through `extractMinimalEventData`. -/
def filterPageEvents (now : Nat) (issueType : String)
    (startDate endDate : Nat) (page : List RawEvent) : List MinimalEvent :=
  page.foldl
    (fun allEvents event =>
      match jsOptOrNat event.dateCreated event.dateReceived with
      | none => allEvents
      | some eventDate =>
        if startDate ≤ eventDate ∧ eventDate ≤ endDate then
          allEvents ++ [extractMinimalEventData now issueType event]
        else allEvents)
    []

/-- The pagination loop of `fetchDateRangeChunk` (lines 212-243): pages are
processed in link-header order, and the loop breaks after processing an
empty page (`if (data.length === 0) break`). -/
def processPages (now : Nat) (issueType : String) (startDate endDate : Nat) :
    List (List RawEvent) → List MinimalEvent
  | [] => []
  | page :: rest =>
    let pageEvents := filterPageEvents now issueType startDate endDate page
    if page.isEmpty then pageEvents
    else pageEvents ++ processPages now issueType startDate endDate rest

/-- `fetchDateRangeChunk` (`fetch_payment_data.js` lines 192-252).  The
upstream API interaction for one window is modelled by an
`Except String (List (List RawEvent))`: either the sequence of pages the
link-header chain yields, or a failure raised at some point of the chain.
The source wraps the whole pagination loop in `try`/`catch`; the `catch`
logs the error and returns `[]`, discarding any partially accumulated
events. -/
def fetchDateRangeChunk (now : Nat) (issueType : String)
    (upstream : Except String (List (List RawEvent)))
    (startDate endDate : Nat) : List MinimalEvent :=
  match upstream with
  | .error _ => []
  | .ok pages => processPages now issueType startDate endDate pages

/-- One persisted chunk file: the window encoded in its filename
(`<start>_to_<end>.json`) and the `events` array of its JSON body.  The
remaining JSON metadata (`fetchDate`, `issueId`, `issueName`,
`totalEvents`) is never read back by any code path a claim mentions;
`totalEvents` is determined by `events.length` and `fetchDate` is the
wall-clock write time. -/
structure Chunk where
  dateRangeStart : Nat
  dateRangeEnd : Nat
  events : List MinimalEvent
deriving DecidableEq

/-- `saveChunk` (`fetch_payment_data.js` lines 110-128): writes the chunk
file named after the window into the per-issue directory, modelled as
appending to the directory listing. -/
def saveChunk (disk : List Chunk) (startDate endDate : Nat)
    (events : List MinimalEvent) : List Chunk :=
  disk ++ [⟨startDate, endDate, events⟩]

/-- `loadChunksInDateRange` from the report processor (unnamed source file,
lines 38-74): walk the directory listing in order, keep chunks whose stored
window overlaps the requested range (`chunkEnd >= startDate && chunkStart <=
endDate`), and within each kept chunk push the events whose date falls in
`[startDate, endDate]`. -/
def loadChunksInDateRange (files : List Chunk) (startDate endDate : Nat) :
    List MinimalEvent :=
  files.foldl
    (fun allEvents c =>
      if startDate ≤ c.dateRangeEnd ∧ c.dateRangeStart ≤ endDate then
        allEvents ++
          c.events.filter
            (fun ev => decide (startDate ≤ ev.timestamp ∧ ev.timestamp ≤ endDate))
      else allEvents)
    []

/-- The Gap Detector of `fetchMissingChunks` (`fetch_payment_data.js` lines
264-276): planned windows whose exact `(start, end)` pair has no persisted
chunk.  The source compares `` `${start}_to_${end}` `` key strings, which are
in bijection with the `(start, end)` pairs. -/
def missingRangesOf (allRanges existingRanges : List (Nat × Nat)) :
    List (Nat × Nat) :=
  allRanges.filter (fun r => decide (r ∉ existingRanges))

/-- `fetchMissingChunks` (`fetch_payment_data.js` lines 254-307): plan the
windows, diff against the chunks already on disk, fetch each missing window
and persist a chunk for it — the fetched events when there are any, an empty
chunk otherwise ("Still save empty chunk to mark as fetched").  Returns the
new directory listing together with the number of per-window upstream fetch
calls issued. -/
def fetchMissingChunks (now : Nat) (issueType : String)
    (upstream : Nat → Nat → Except String (List (List RawEvent)))
    (disk : List Chunk) (startDate endDate : Nat) : List Chunk × Nat :=
  let allRanges := getDateRanges startDate endDate CHUNK_DAYS
  let existingRanges := disk.map (fun c => (c.dateRangeStart, c.dateRangeEnd))
  let missingRanges := missingRangesOf allRanges existingRanges
  let newDisk :=
    missingRanges.foldl
      (fun d r =>
        let events := fetchDateRangeChunk now issueType (upstream r.1 r.2) r.1 r.2
        if events.length > 0 then saveChunk d r.1 r.2 events
        else saveChunk d r.1 r.2 [])
      disk
  (newDisk, missingRanges.length)

/-- The canonical bucket name for grouped invalid-card-number errors
(`processPaymentErrors`). -/
def invalidCardNumberKey : String := "Invalid card number (grouped)"

/-- JavaScript `String.prototype.endsWith` as a suffix test on the character
sequences (identical semantics; spelled out because `String.endsWith` in
core works on byte positions and does not reduce inside the kernel). -/
def strEndsWith (s suffix : String) : Bool :=
  suffix.data.isSuffixOf s.data

/-- The reason key under which `processPaymentErrors` (report processor,
lines 90-122) counts an event: `event.paymentErrorReason || 'Unknown'`,
then any reason ending in `"is not a valid card number"` collapsed to the
canonical bucket. -/
def errorReasonOf (ev : MinimalEvent) : String :=
  let reason := jsStringOr ev.paymentErrorReason "Unknown"
  if strEndsWith reason "is not a valid card number" then invalidCardNumberKey
  else reason

/-- JavaScript `Set.add`: append the element unless already present
(insertion order preserved, used to model the per-reason `users` sets). -/
def setAdd (l : List String) (x : String) : List String :=
  if x ∈ l then l else l ++ [x]

/-- First-occurrence deduplication: the distinct elements of `l` in order of
first appearance (`l.foldl setAdd []`). -/
def firstSeen (l : List String) : List String :=
  l.foldl setAdd []

/-- One own entry of the `reasonData` plain object of
`processPaymentErrors`: reason key, running event count, and the `users`
set in insertion order.  The own entries are kept in property-creation
order; enumeration order is recovered by `jsObjectEntries` below. -/
structure ReasonAcc where
  reason : String
  count : Nat
  users : List String
deriving DecidableEq

/-- The value of a digit string (`jsArrayIndexKey` guarantees the canonical
form, in which case this is the numeric value the key denotes). -/
def digitsToNat (l : List Char) : Nat :=
  l.foldl (fun n c => n * 10 + (c.toNat - '0'.toNat)) 0

/-- ECMAScript array-index string keys: the canonical decimal string of an
integer in `[0, 2^32 - 2]` (digits only, no leading zero except `"0"`).
Plain objects enumerate these keys first, in ascending numeric order,
before all other string keys. -/
def jsArrayIndexKey (s : String) : Bool :=
  (!s.data.isEmpty) && s.data.all (fun c => c.isDigit)
    && (s == "0" || s.data.head? != some '0')
    && digitsToNat s.data < 4294967295

/-- The string-keyed properties a plain object inherits from
`Object.prototype` in Node (all of them truthy functions, plus the
`__proto__` accessor).  For a reason equal to one of these,
`!reasonData[reason]` is false although no own entry exists, so the
initialisation is skipped and the subsequent `.users.add(...)` throws a
TypeError. -/
def protoKeys : List String :=
  ["__proto__", "constructor", "hasOwnProperty", "isPrototypeOf",
   "propertyIsEnumerable", "toLocaleString", "toString", "valueOf",
   "__defineGetter__", "__defineSetter__", "__lookupGetter__",
   "__lookupSetter__"]

/-- Update the own-entry list for one event whose reason already has an own
entry or is about to get a fresh one: bump the existing entry in place (JS
property update) or append a fresh entry (JS property-creation order). -/
def addEvent : List ReasonAcc → String → String → List ReasonAcc
  | [], reason, u => [⟨reason, 1, setAdd [] u⟩]
  | a :: rest, reason, u =>
    if a.reason = reason then ⟨a.reason, a.count + 1, setAdd a.users u⟩ :: rest
    else a :: addEvent rest reason u

/-- One iteration of the grouping loop of `processPaymentErrors` (report
processor, lines 94-111): `if (!reasonData[reason]) { init }` followed by
`reasonData[reason].count++; reasonData[reason].users.add(userId)`.  The
property read walks the prototype chain, so a reason with an own entry is
updated, a reason colliding with an inherited `Object.prototype` property
skips the initialisation and then throws (`.users` is undefined on the
inherited function), and any other reason is initialised and updated. -/
def groupStep (acc : List ReasonAcc) (reason u : String) :
    Except String (List ReasonAcc) :=
  if reason ∈ acc.map (fun a => a.reason) then
    Except.ok (addEvent acc reason u)
  else if reason ∈ protoKeys then
    Except.error "TypeError: reasonData[reason].users is undefined"
  else
    Except.ok (addEvent acc reason u)

/-- The grouping loop of `processPaymentErrors` (lines 94-111), threading
the thrown TypeError of a prototype-colliding reason as an error. -/
def groupReasonsGo : List ReasonAcc → List MinimalEvent →
    Except String (List ReasonAcc)
  | acc, [] => Except.ok acc
  | acc, ev :: evs =>
    match groupStep acc (errorReasonOf ev) ev.userId with
    | Except.error e => Except.error e
    | Except.ok acc2 => groupReasonsGo acc2 evs

/-- The grouping phase of `processPaymentErrors` over the whole event
list. -/
def groupReasons (events : List MinimalEvent) :
    Except String (List ReasonAcc) :=
  groupReasonsGo [] events

/-- Insertion step for the ascending-by-numeric-value ordering of
array-index keys. -/
def insertByIndexAsc (x : ReasonAcc) : List ReasonAcc → List ReasonAcc
  | [] => [x]
  | y :: ys =>
    if digitsToNat y.reason.data ≤ digitsToNat x.reason.data then
      y :: insertByIndexAsc x ys
    else x :: y :: ys

/-- Sort ascending by the numeric value of the (array-index) reason key. -/
def sortByIndexAsc : List ReasonAcc → List ReasonAcc
  | [] => []
  | x :: xs => insertByIndexAsc x (sortByIndexAsc xs)

/-- `Object.entries(reasonData)`: ECMAScript ordinary own property order —
array-index string keys first in ascending numeric order, then the
remaining string keys in property-creation (insertion) order. -/
def jsObjectEntries (acc : List ReasonAcc) : List ReasonAcc :=
  sortByIndexAsc (acc.filter (fun a => jsArrayIndexKey a.reason))
    ++ acc.filter (fun a => !jsArrayIndexKey a.reason)

instance {e a : Type} [DecidableEq e] [DecidableEq a] :
    DecidableEq (Except e a) := fun x y =>
  match x, y with
  | Except.error e1, Except.error e2 =>
    if h : e1 = e2 then Decidable.isTrue (by rw [h])
    else Decidable.isFalse (fun hh => h (Except.error.inj hh))
  | Except.error _, Except.ok _ =>
    Decidable.isFalse (fun hh => Except.noConfusion hh)
  | Except.ok _, Except.error _ =>
    Decidable.isFalse (fun hh => Except.noConfusion hh)
  | Except.ok a1, Except.ok a2 =>
    if h : a1 = a2 then Decidable.isTrue (by rw [h])
    else Decidable.isFalse (fun hh => h (Except.ok.inj hh))

/-- One row of the aggregator's output (`{reason, count, uniqueUsers}`). -/
structure ReasonEntry where
  reason : String
  count : Nat
  uniqueUsers : Nat
deriving DecidableEq

/-- Stable insertion step for the descending-by-count sort: keep skipping
while the scanned element's count is strictly larger, so ties keep their
previous relative order. -/
def insertByCountDesc (x : ReasonEntry) : List ReasonEntry → List ReasonEntry
  | [] => [x]
  | y :: ys =>
    if x.count < y.count then y :: insertByCountDesc x ys else x :: y :: ys

/-- Stable sort descending by `count`, modelling
`results.sort((a, b) => b.count - a.count)`: `Array.prototype.sort` is
stable, and any stable sort with the same comparator produces the same
list. -/
def sortByCountDesc : List ReasonEntry → List ReasonEntry
  | [] => []
  | x :: xs => insertByCountDesc x (sortByCountDesc xs)

/-- `processPaymentErrors(events)` from the report processor, lines 90-122:
group by normalised reason (propagating the TypeError a
prototype-colliding reason raises), project each group of
`Object.entries(reasonData)` to `{reason, count, uniqueUsers}`, sort
descending by count (stable). -/
def processPaymentErrors (events : List MinimalEvent) :
    Except String (List ReasonEntry) :=
  match groupReasons events with
  | Except.error e => Except.error e
  | Except.ok acc =>
    Except.ok
      (sortByCountDesc
        ((jsObjectEntries acc).map
          (fun a => ⟨a.reason, a.count, a.users.length⟩)))

/-! ### Window Planner lemmas -/

theorem getDateRangesAux_exact (d : Nat) (hd : 0 < d) :
    ∀ (k fuel s : Nat), k * d ≤ fuel →
      getDateRangesAux (s + k * d) d fuel s
        = (List.range k).map (fun i => (s + i * d, s + i * d + d - 1)) := by
  intro k
  induction k with
  | zero =>
    intro fuel s _
    cases fuel with
    | zero => rfl
    | succ f => simp [getDateRangesAux]
  | succ k ih =>
    intro fuel s hfuel
    have hkd : (k + 1) * d = k * d + d := by ring
    cases fuel with
    | zero => omega
    | succ f =>
      have hlt : s < s + (k + 1) * d := by omega
      have htrunc : ¬ (s + d - 1 > s + (k + 1) * d) := by omega
      simp only [getDateRangesAux, if_pos hlt, if_neg htrunc]
      have hstep : s + d - 1 + 1 = s + d := by omega
      have hsplit : s + (k + 1) * d = (s + d) + k * d := by omega
      rw [hstep, hsplit, ih f (s + d) (by omega)]
      rw [List.range_succ_eq_map, List.map_cons, List.map_map]
      refine congrArg₂ _ (by simp) ?_
      refine List.map_congr_left ?_
      intro i _
      have hi : i.succ * d = i * d + d := Nat.succ_mul i d
      simp only [Function.comp, Prod.mk.injEq]
      exact ⟨by omega, by omega⟩

/-- Closed form of the Window Planner on a range whose length is an exact
multiple of the chunk size: `k` consecutive windows of `d` days starting at
`s`, the last one ending the day before `s + k*d`. -/
theorem getDateRanges_exact (s k d : Nat) (hd : 0 < d) :
    getDateRanges s (s + k * d) d
      = (List.range k).map (fun i => (s + i * d, s + i * d + d - 1)) := by
  unfold getDateRanges
  have h : s + k * d - s = k * d := by omega
  rw [h]
  exact getDateRangesAux_exact d hd k (k * d) s (Nat.le_refl _)

/-- C2 (amended).  For every start `s`, positive chunk size `d` and `k`,
on the range from `s` to `s + k*d` (whose length is the exact multiple
`k*d` of `d`) the Window Planner produces exactly `k` windows, each spanning
exactly `d` days, pairwise non-overlapping (each window ends strictly before
the next begins), and together covering exactly the days `x` with
`s ≤ x < s + k*d` — every calendar day of the requested range except the end
date itself, which no window contains. -/
theorem c2_planner_exact_multiple (s k d : Nat) (hd : 0 < d) :
    (getDateRanges s (s + k * d) d).length = k
    ∧ (∀ w ∈ getDateRanges s (s + k * d) d, w.2 + 1 = w.1 + d)
    ∧ (getDateRanges s (s + k * d) d).Pairwise (fun w w' => w.2 < w'.1)
    ∧ (∀ x, (∃ w ∈ getDateRanges s (s + k * d) d, w.1 ≤ x ∧ x ≤ w.2)
        ↔ (s ≤ x ∧ x < s + k * d)) := by
  rw [getDateRanges_exact s k d hd]
  refine ⟨by simp, ?_, ?_, ?_⟩
  · intro w hw
    simp only [List.mem_map, List.mem_range] at hw
    obtain ⟨i, hi, rfl⟩ := hw
    omega
  · rw [List.pairwise_map]
    refine (List.pairwise_lt_range k).imp ?_
    intro i j hij
    have h1 : (i + 1) * d ≤ j * d := Nat.mul_le_mul_right d (by omega)
    have h2 : (i + 1) * d = i * d + d := by ring
    omega
  · intro x
    constructor
    · rintro ⟨w, hw, hx1, hx2⟩
      simp only [List.mem_map, List.mem_range] at hw
      obtain ⟨i, hi, rfl⟩ := hw
      have h1 : (i + 1) * d ≤ k * d := Nat.mul_le_mul_right d (by omega)
      have h2 : (i + 1) * d = i * d + d := by ring
      simp only at hx1 hx2
      omega
    · rintro ⟨hsx, hxk⟩
      refine ⟨(s + (x - s) / d * d, s + (x - s) / d * d + d - 1), ?_, ?_, ?_⟩
      · simp only [List.mem_map, List.mem_range]
        exact ⟨(x - s) / d, by rw [Nat.div_lt_iff_lt_mul hd]; omega, rfl⟩
      · have h := Nat.div_mul_le_self (x - s) d
        omega
      · have hm := Nat.div_add_mod (x - s) d
        have hmod := Nat.mod_lt (x - s) hd
        have hq : d * ((x - s) / d) = (x - s) / d * d := by ring
        omega

/-- Witness for `c2_planner_exact_multiple` at `s = 0`, `k = 2`, `d = 7`. -/
theorem c2_planner_exact_multiple_witness :
    (getDateRanges 0 (0 + 2 * 7) 7).length = 2 :=
  (c2_planner_exact_multiple 0 2 7 (by decide)).1

/-- Counterexample to C2 as stated: with `start = 0`, `end = 30`,
`d = 30` (an exact multiple), the planner emits the single window
`(0, 29)` and no window contains the end date `30`, so the windows do not
cover every calendar day of the inclusive range `[0, 30]`. -/
theorem c2_planner_counterexample :
    getDateRanges 0 30 30 = [(0, 29)]
    ∧ ¬ ∃ w ∈ getDateRanges 0 30 30, w.1 ≤ 30 ∧ 30 ≤ w.2 := by
  decide

/-- C7 (amended).  A single-day range — start date equal to end date — makes
the Window Planner produce the empty sequence (the loop guard
`currentStart < endDate` fails immediately), not a one-day window. -/
theorem c7_single_day_range_empty (s d : Nat) : getDateRanges s s d = [] := by
  unfold getDateRanges
  rw [Nat.sub_self]
  rfl

/-- Counterexample to C7 as stated: for the single-day range with
`start = end = 5` (and chunk size 30) the planner emits zero windows, not
exactly one window of size one day. -/
theorem c7_single_day_counterexample : (getDateRanges 5 5 30).length ≠ 1 := by
  decide

/-! ### Reader lemmas -/

/-- Overlap test of the Reader as a Bool-valued predicate. -/
def chunkOverlaps (startDate endDate : Nat) (c : Chunk) : Bool :=
  decide (startDate ≤ c.dateRangeEnd ∧ c.dateRangeStart ≤ endDate)

/-- In-range test of the Reader as a Bool-valued predicate. -/
def eventInRange (startDate endDate : Nat) (ev : MinimalEvent) : Bool :=
  decide (startDate ≤ ev.timestamp ∧ ev.timestamp ≤ endDate)

theorem loadChunks_foldl_general (s e : Nat) :
    ∀ (files : List Chunk) (acc : List MinimalEvent),
      files.foldl
        (fun allEvents c =>
          if s ≤ c.dateRangeEnd ∧ c.dateRangeStart ≤ e then
            allEvents ++ c.events.filter (eventInRange s e)
          else allEvents)
        acc
      = acc ++ (files.filter (chunkOverlaps s e)).flatMap
          (fun c => c.events.filter (eventInRange s e)) := by
  intro files
  induction files with
  | nil => intro acc; simp
  | cons c rest ih =>
    intro acc
    by_cases hc : s ≤ c.dateRangeEnd ∧ c.dateRangeStart ≤ e
    · have hov : chunkOverlaps s e c = true := by
        simp [chunkOverlaps, hc]
      rw [List.foldl_cons, if_pos hc, ih, List.filter_cons, hov]
      simp [List.flatMap_cons, List.append_assoc]
    · have hov : chunkOverlaps s e c = false := by
        simp [chunkOverlaps, hc]
      rw [List.foldl_cons, if_neg hc, ih, List.filter_cons, hov]
      simp

theorem loadChunks_eq_bind (files : List Chunk) (s e : Nat) :
    loadChunksInDateRange files s e
      = (files.filter (chunkOverlaps s e)).flatMap
          (fun c => c.events.filter (eventInRange s e)) := by
  unfold loadChunksInDateRange
  rw [show
      (fun (allEvents : List MinimalEvent) (c : Chunk) =>
        if s ≤ c.dateRangeEnd ∧ c.dateRangeStart ≤ e then
          allEvents ++
            c.events.filter
              (fun ev => decide (s ≤ ev.timestamp ∧ ev.timestamp ≤ e))
        else allEvents)
      = (fun allEvents c =>
          if s ≤ c.dateRangeEnd ∧ c.dateRangeStart ≤ e then
            allEvents ++ c.events.filter (eventInRange s e)
          else allEvents) from rfl]
  rw [loadChunks_foldl_general s e files []]
  simp

/-- C3 (amended).  For every directory listing and requested range
`[s, e]`, the Reader returns exactly the events of the chunks whose stored
window overlaps the requested range, with each chunk's event list filtered
down to events whose date falls within `[s, e]`, concatenated in
directory-listing order with each chunk's on-disk event order retained;
consequently every returned event's date lies in `[s, e]`.  When the
directory listing happens to be sorted ascending by chunk start date (the
OS does not guarantee this), the contributing chunks — and hence the
concatenation — are in ascending order of chunk start date. -/
theorem c3_reader_overlap_filter_order (files : List Chunk) (s e : Nat) :
    (loadChunksInDateRange files s e
      = (files.filter (chunkOverlaps s e)).flatMap
          (fun c => c.events.filter (eventInRange s e)))
    ∧ (∀ ev ∈ loadChunksInDateRange files s e,
        s ≤ ev.timestamp ∧ ev.timestamp ≤ e)
    ∧ (files.Pairwise (fun c c' => c.dateRangeStart ≤ c'.dateRangeStart) →
        (files.filter (chunkOverlaps s e)).Pairwise
          (fun c c' => c.dateRangeStart ≤ c'.dateRangeStart)) := by
  refine ⟨loadChunks_eq_bind files s e, ?_, ?_⟩
  · intro ev hev
    rw [loadChunks_eq_bind files s e] at hev
    simp only [List.mem_flatMap] at hev
    obtain ⟨c, _, hev⟩ := hev
    have := List.of_mem_filter hev
    simpa [eventInRange] using this
  · intro hp
    exact hp.sublist (List.filter_sublist files)

/-- Witness for `c3_reader_overlap_filter_order`: on a listing already
sorted by start date, the overlapping chunks stay sorted by start date. -/
theorem c3_reader_witness :
    (([⟨0, 0, []⟩, ⟨3, 4, []⟩] : List Chunk).filter (chunkOverlaps 1 3)).Pairwise
      (fun c c' => c.dateRangeStart ≤ c'.dateRangeStart) :=
  (c3_reader_overlap_filter_order [⟨0, 0, []⟩, ⟨3, 4, []⟩] 1 3).2.2 (by decide)

/-- Counterexample to C3 as stated: the Reader concatenates in
directory-listing order, not ascending chunk-start order.  Two listings of
the same two chunks produce different outputs, and on the listing that
presents the later-start chunk first the returned events are not ordered by
ascending chunk start date. -/
theorem c3_reader_counterexample :
    loadChunksInDateRange
        [⟨10, 10, [⟨10, none, "uB", none, none, none, none, none⟩]⟩,
         ⟨0, 0, [⟨0, none, "uA", none, none, none, none, none⟩]⟩] 0 20
      = [⟨10, none, "uB", none, none, none, none, none⟩,
         ⟨0, none, "uA", none, none, none, none, none⟩]
    ∧ loadChunksInDateRange
          [⟨10, 10, [⟨10, none, "uB", none, none, none, none, none⟩]⟩,
           ⟨0, 0, [⟨0, none, "uA", none, none, none, none, none⟩]⟩] 0 20
      ≠ loadChunksInDateRange
          [⟨0, 0, [⟨0, none, "uA", none, none, none, none, none⟩]⟩,
           ⟨10, 10, [⟨10, none, "uB", none, none, none, none, none⟩]⟩] 0 20 := by
  decide

/-- C6 (amended).  Persisting a chunk with `saveChunk` and reading it back
via the Reader for that chunk's exact window yields the identical event
list, in the same order, provided every persisted event's date lies within
the window — which holds for every chunk the fetcher produces, since
`fetchDateRangeChunk` filters events to the window before persisting. -/
theorem c6_save_load_roundtrip (s e : Nat) (events : List MinimalEvent)
    (h : ∀ ev ∈ events, s ≤ ev.timestamp ∧ ev.timestamp ≤ e) :
    loadChunksInDateRange (saveChunk [] s e events) s e = events := by
  rw [loadChunks_eq_bind]
  by_cases hse : s ≤ e
  · have hov : chunkOverlaps s e ⟨s, e, events⟩ = true := by
      simp [chunkOverlaps, hse]
    simp only [saveChunk, List.nil_append, List.filter_cons, hov, if_pos,
      List.filter_nil, List.flatMap_cons, List.flatMap_nil, List.append_nil]
    exact List.filter_eq_self.mpr fun ev hev => by
      simpa [eventInRange] using h ev hev
  · cases events with
    | nil => simp [saveChunk, chunkOverlaps, hse]
    | cons ev evs =>
      have := h ev (List.mem_cons_self ev evs)
      omega

/-- Witness for `c6_save_load_roundtrip` on a one-event chunk. -/
theorem c6_save_load_roundtrip_witness :
    loadChunksInDateRange
        (saveChunk [] 0 5 [⟨3, none, "u", none, none, none, none, none⟩]) 0 5
      = [⟨3, none, "u", none, none, none, none, none⟩] :=
  c6_save_load_roundtrip 0 5 [⟨3, none, "u", none, none, none, none, none⟩]
    (by decide)

/-- Counterexample to C6 as stated (for *every* event list): an event whose
date lies outside the chunk's window is silently dropped on read-back, so
the round-trip is not the identity on arbitrary event lists. -/
theorem c6_roundtrip_counterexample :
    loadChunksInDateRange
        (saveChunk [] 0 0 [⟨5, none, "u", none, none, none, none, none⟩]) 0 0
      = []
    ∧ ([] : List MinimalEvent)
      ≠ [⟨5, none, "u", none, none, none, none, none⟩] := by
  decide

/-! ### Gap Detector -/

/-- C4.  For every planned window sequence and every set of on-disk chunk
windows, the Gap Detector returns exactly the planned windows whose exact
`(start, end)` pair is absent from disk — the empty sequence when all are
present — using exact-pair equality (a window is satisfied only by a chunk
with literally equal bounds, never by mere overlap); and it is monotonic:
enlarging the on-disk set never adds a window to the missing set. -/
theorem c4_gap_detector_exact_and_monotone
    (planned existing existing' : List (Nat × Nat)) :
    (∀ r, r ∈ missingRangesOf planned existing ↔ (r ∈ planned ∧ r ∉ existing))
    ∧ ((∀ r ∈ planned, r ∈ existing) → missingRangesOf planned existing = [])
    ∧ (existing ⊆ existing' →
        ∀ r ∈ missingRangesOf planned existing',
          r ∈ missingRangesOf planned existing) := by
  refine ⟨?_, ?_, ?_⟩
  · intro r
    unfold missingRangesOf
    rw [List.mem_filter]
    simp
  · intro h
    unfold missingRangesOf
    rw [List.filter_eq_nil_iff]
    intro r hr
    simpa using h r hr
  · intro hsub r hr
    unfold missingRangesOf at hr ⊢
    rw [List.mem_filter] at hr ⊢
    refine ⟨hr.1, ?_⟩
    have h2 := hr.2
    simp only [decide_eq_true_eq] at h2 ⊢
    exact fun hmem => h2 (hsub hmem)

/-- Witness for `c4_gap_detector_exact_and_monotone`: when every planned
window is on disk the missing set is empty. -/
theorem c4_gap_detector_witness :
    missingRangesOf [(0, 6), (7, 13)] [(7, 13), (0, 6), (20, 26)] = [] :=
  (c4_gap_detector_exact_and_monotone [(0, 6), (7, 13)]
    [(7, 13), (0, 6), (20, 26)] []).2.1 (by decide)

/-! ### Fetch-and-cache flow -/

/-- The events `fetchMissingChunks` persists for a missing window `r`. -/
def windowEvents (now : Nat) (issueType : String)
    (upstream : Nat → Nat → Except String (List (List RawEvent)))
    (r : Nat × Nat) : List MinimalEvent :=
  fetchDateRangeChunk now issueType (upstream r.1 r.2) r.1 r.2

theorem fetchLoop_step_eq (now : Nat) (issueType : String)
    (upstream : Nat → Nat → Except String (List (List RawEvent)))
    (d : List Chunk) (r : Nat × Nat) :
    (let events := fetchDateRangeChunk now issueType (upstream r.1 r.2) r.1 r.2
     if events.length > 0 then saveChunk d r.1 r.2 events
     else saveChunk d r.1 r.2 [])
    = saveChunk d r.1 r.2 (windowEvents now issueType upstream r) := by
  by_cases h : (windowEvents now issueType upstream r).length > 0
  · simp only [windowEvents] at h ⊢
    rw [if_pos h]
  · have hnil : windowEvents now issueType upstream r = [] :=
      List.eq_nil_of_length_eq_zero (by omega)
    simp only [windowEvents] at hnil h ⊢
    rw [if_neg h, hnil]

theorem fetchLoop_keys (now : Nat) (issueType : String)
    (upstream : Nat → Nat → Except String (List (List RawEvent))) :
    ∀ (rs : List (Nat × Nat)) (disk : List Chunk),
      (rs.foldl
        (fun d r =>
          let events := fetchDateRangeChunk now issueType (upstream r.1 r.2) r.1 r.2
          if events.length > 0 then saveChunk d r.1 r.2 events
          else saveChunk d r.1 r.2 [])
        disk).map (fun c => (c.dateRangeStart, c.dateRangeEnd))
      = disk.map (fun c => (c.dateRangeStart, c.dateRangeEnd)) ++ rs := by
  intro rs
  induction rs with
  | nil => intro disk; simp
  | cons r rs ih =>
    intro disk
    rw [List.foldl_cons, fetchLoop_step_eq now issueType upstream disk r, ih]
    simp [saveChunk]

theorem fetchLoop_mem_mono (now : Nat) (issueType : String)
    (upstream : Nat → Nat → Except String (List (List RawEvent))) :
    ∀ (rs : List (Nat × Nat)) (disk : List Chunk) (c : Chunk), c ∈ disk →
      c ∈ rs.foldl
        (fun d r =>
          let events := fetchDateRangeChunk now issueType (upstream r.1 r.2) r.1 r.2
          if events.length > 0 then saveChunk d r.1 r.2 events
          else saveChunk d r.1 r.2 [])
        disk := by
  intro rs
  induction rs with
  | nil => intro disk c hc; simpa using hc
  | cons r rs ih =>
    intro disk c hc
    rw [List.foldl_cons, fetchLoop_step_eq now issueType upstream disk r]
    exact ih _ c (by simp [saveChunk, hc])

theorem fetchLoop_mem (now : Nat) (issueType : String)
    (upstream : Nat → Nat → Except String (List (List RawEvent))) :
    ∀ (rs : List (Nat × Nat)) (disk : List Chunk) (r : Nat × Nat), r ∈ rs →
      (⟨r.1, r.2, windowEvents now issueType upstream r⟩ : Chunk)
        ∈ rs.foldl
            (fun d r =>
              let events := fetchDateRangeChunk now issueType (upstream r.1 r.2) r.1 r.2
              if events.length > 0 then saveChunk d r.1 r.2 events
              else saveChunk d r.1 r.2 [])
            disk := by
  intro rs
  induction rs with
  | nil => intro disk r hr; simp at hr
  | cons r0 rs ih =>
    intro disk r hr
    rw [List.foldl_cons, fetchLoop_step_eq now issueType upstream disk r0]
    rcases List.mem_cons.mp hr with hEq | hMem
    · subst hEq
      exact fetchLoop_mem_mono now issueType upstream rs _ _ (by simp [saveChunk])
    · exact ih _ r hMem

/-- The chunk windows on disk after a run of `fetchMissingChunks`: the
windows already present plus exactly the windows that were missing. -/
theorem fetchMissingChunks_disk_keys (now : Nat) (issueType : String)
    (upstream : Nat → Nat → Except String (List (List RawEvent)))
    (disk : List Chunk) (startDate endDate : Nat) :
    (fetchMissingChunks now issueType upstream disk startDate endDate).1.map
        (fun c => (c.dateRangeStart, c.dateRangeEnd))
      = disk.map (fun c => (c.dateRangeStart, c.dateRangeEnd))
        ++ missingRangesOf (getDateRanges startDate endDate CHUNK_DAYS)
            (disk.map (fun c => (c.dateRangeStart, c.dateRangeEnd))) := by
  unfold fetchMissingChunks
  exact fetchLoop_keys now issueType upstream _ disk

/-- C5.  Running the fetch-and-cache flow twice in succession over the same
range is idempotent: after the first run every planned window has a
persisted chunk, so the second run finds no missing window and issues zero
per-window upstream fetch calls. -/
theorem c5_second_run_zero_fetches (now : Nat) (issueType : String)
    (upstream : Nat → Nat → Except String (List (List RawEvent)))
    (disk : List Chunk) (startDate endDate : Nat) :
    (fetchMissingChunks now issueType upstream
        (fetchMissingChunks now issueType upstream disk startDate endDate).1
        startDate endDate).2 = 0 := by
  have hcount :
      (fetchMissingChunks now issueType upstream
          (fetchMissingChunks now issueType upstream disk startDate endDate).1
          startDate endDate).2
        = (missingRangesOf (getDateRanges startDate endDate CHUNK_DAYS)
            ((fetchMissingChunks now issueType upstream disk startDate endDate).1.map
              (fun c => (c.dateRangeStart, c.dateRangeEnd)))).length := rfl
  rw [hcount, fetchMissingChunks_disk_keys]
  have hnil :
      missingRangesOf (getDateRanges startDate endDate CHUNK_DAYS)
        (disk.map (fun c => (c.dateRangeStart, c.dateRangeEnd))
          ++ missingRangesOf (getDateRanges startDate endDate CHUNK_DAYS)
              (disk.map (fun c => (c.dateRangeStart, c.dateRangeEnd))))
      = [] := by
    unfold missingRangesOf
    rw [List.filter_eq_nil_iff]
    intro r hr
    simp only [decide_eq_true_eq, Decidable.not_not, List.mem_append]
    by_cases hd : r ∈ disk.map (fun c => (c.dateRangeStart, c.dateRangeEnd))
    · exact Or.inl hd
    · exact Or.inr (List.mem_filter.mpr ⟨hr, by simpa using hd⟩)
  rw [hnil]
  rfl

/-- C1 (amended).  A window-level fetch failure is caught inside
`fetchDateRangeChunk`, which returns the empty event list, and
`fetchMissingChunks` then persists an *empty chunk* for that window — the
same as for a window that genuinely has no events — so the failed window
does not remain missing and is not eligible for re-fetch on a future run. -/
theorem c1_failed_fetch_persists_empty_chunk (now : Nat) (issueType : String)
    (upstream : Nat → Nat → Except String (List (List RawEvent)))
    (disk : List Chunk) (startDate endDate : Nat) (r : Nat × Nat) (msg : String)
    (hr : r ∈ getDateRanges startDate endDate CHUNK_DAYS)
    (hmiss : r ∉ disk.map (fun c => (c.dateRangeStart, c.dateRangeEnd)))
    (hfail : upstream r.1 r.2 = .error msg) :
    (⟨r.1, r.2, []⟩ : Chunk)
      ∈ (fetchMissingChunks now issueType upstream disk startDate endDate).1 := by
  have hev : windowEvents now issueType upstream r = [] := by
    unfold windowEvents
    rw [hfail]
    rfl
  have hmem : r ∈ missingRangesOf (getDateRanges startDate endDate CHUNK_DAYS)
      (disk.map (fun c => (c.dateRangeStart, c.dateRangeEnd))) :=
    List.mem_filter.mpr ⟨hr, by simpa using hmiss⟩
  have h := fetchLoop_mem now issueType upstream
    (missingRangesOf (getDateRanges startDate endDate CHUNK_DAYS)
      (disk.map (fun c => (c.dateRangeStart, c.dateRangeEnd)))) disk r hmem
  rw [hev] at h
  exact h

/-- Witness for `c1_failed_fetch_persists_empty_chunk`: an upstream that
always fails still leaves an (empty) chunk for the window `(0, 29)` of the
range `0..30`. -/
theorem c1_failed_fetch_witness :
    (⟨0, 29, []⟩ : Chunk)
      ∈ (fetchMissingChunks 0 "payment_error"
          (fun _ _ => Except.error "network error") [] 0 30).1 :=
  c1_failed_fetch_persists_empty_chunk 0 "payment_error"
    (fun _ _ => Except.error "network error") [] 0 30 (0, 29) "network error"
    (by decide) (by decide) rfl

/-- Counterexample to C1 as stated: for the window `(0, 29)` whose upstream
fetch raises an error, the flow still saves a chunk file (an empty one), so
the window does *not* remain missing. -/
theorem c1_failed_fetch_counterexample :
    (fetchMissingChunks 0 "payment_error"
        (fun _ _ => Except.error "network error") [] 0 30).1
      = [⟨0, 29, []⟩]
    ∧ missingRangesOf (getDateRanges 0 30 CHUNK_DAYS)
        ((fetchMissingChunks 0 "payment_error"
            (fun _ _ => Except.error "network error") [] 0 30).1.map
          (fun c => (c.dateRangeStart, c.dateRangeEnd)))
      = [] := by
  decide

/-! ### User-identifier resolution -/

/-- A field value JavaScript treats as falsy in `a || b`: absent (or null)
or the empty string. -/
def jsBlank (v : Option String) : Prop :=
  v = none ∨ v = some ""

/-- C9 (amended).  The resolved user identifier is the user's `id` when
present and non-empty, else the user's `email` when present and non-empty,
else the user's `ip_address` when present and non-empty, else the literal
`"anonymous"` (JavaScript `||` treats an empty-string field like an absent
one); in particular a user with only `ip_address = "1.2.3.4"` resolves to
`"1.2.3.4"`, and a user with none of the three fields — or no user object at
all — resolves to `"anonymous"`. -/
theorem c9_resolve_user_id (u : SentryUser) :
    (∀ s, u.id = some s → s ≠ "" → resolveUserId (some u) = s)
    ∧ (jsBlank u.id →
        ∀ s, u.email = some s → s ≠ "" → resolveUserId (some u) = s)
    ∧ (jsBlank u.id → jsBlank u.email →
        ∀ s, u.ip_address = some s → s ≠ "" → resolveUserId (some u) = s)
    ∧ (jsBlank u.id → jsBlank u.email → jsBlank u.ip_address →
        resolveUserId (some u) = "anonymous")
    ∧ resolveUserId (some ⟨none, none, some "1.2.3.4"⟩) = "1.2.3.4"
    ∧ resolveUserId (some ⟨none, none, none⟩) = "anonymous"
    ∧ resolveUserId none = "anonymous" := by
  refine ⟨?_, ?_, ?_, ?_, by decide, by decide, by decide⟩
  · intro s hs hne
    simp [resolveUserId, jsStringOr, hs, hne]
  · rintro (h | h) s hs hne <;>
      simp [resolveUserId, jsStringOr, h, hs, hne]
  · rintro (h1 | h1) (h2 | h2) s hs hne <;>
      simp [resolveUserId, jsStringOr, h1, h2, hs, hne]
  · rintro (h1 | h1) (h2 | h2) (h3 | h3) <;>
      simp [resolveUserId, jsStringOr, h1, h2, h3]

/-- Witness for `c9_resolve_user_id`: a non-empty `id` wins over the other
fields. -/
theorem c9_resolve_user_id_witness :
    resolveUserId (some ⟨some "u42", some "mail", some "1.2.3.4"⟩) = "u42" :=
  (c9_resolve_user_id ⟨some "u42", some "mail", some "1.2.3.4"⟩).1 "u42" rfl
    (by decide)

/-- Counterexample to C9 as stated: a user whose `id` field is present but
the empty string resolves to the email, not to the (present) id value, so
"the user's id when present" does not hold literally. -/
theorem c9_resolve_user_id_counterexample :
    (SentryUser.mk (some "") (some "mail") none).id = some ""
    ∧ resolveUserId (some (SentryUser.mk (some "") (some "mail") none)) = "mail"
    ∧ ("mail" : String) ≠ "" := by
  decide

/-! ### Date filtering in the fetcher -/

theorem applyErrorTags_timestamp :
    ∀ (ts : List SentryTag) (m : MinimalEvent),
      (applyErrorTags m ts).timestamp = m.timestamp := by
  intro ts
  induction ts with
  | nil => intro m; rfl
  | cons t ts ih =>
    intro m
    simp only [applyErrorTags]
    split_ifs <;> rw [ih]

/-- Events kept by the fetcher carry exactly the date that was compared
against the window's bounds: the extracted `timestamp` equals
`dateCreated || dateReceived` whenever that value exists. -/
theorem extract_timestamp_of_date (now : Nat) (issueType : String)
    (event : RawEvent) (d : Nat)
    (hd : jsOptOrNat event.dateCreated event.dateReceived = some d) :
    (extractMinimalEventData now issueType event).timestamp = d := by
  unfold extractMinimalEventData
  split_ifs with h1 h2
  · rw [applyErrorTags_timestamp]
    simp [hd]
  · cases findSuccessMerchant event.tags <;> simp [hd]
  · simp [hd]

/-- The event-date test of the fetcher as the `filterMap` it amounts to. -/
def pageEventProjection (now : Nat) (issueType : String)
    (startDate endDate : Nat) (event : RawEvent) : Option MinimalEvent :=
  match jsOptOrNat event.dateCreated event.dateReceived with
  | none => none
  | some eventDate =>
    if startDate ≤ eventDate ∧ eventDate ≤ endDate then
      some (extractMinimalEventData now issueType event)
    else none

theorem filterPageEvents_foldl_general (now : Nat) (issueType : String)
    (startDate endDate : Nat) :
    ∀ (page : List RawEvent) (acc : List MinimalEvent),
      page.foldl
        (fun allEvents event =>
          match jsOptOrNat event.dateCreated event.dateReceived with
          | none => allEvents
          | some eventDate =>
            if startDate ≤ eventDate ∧ eventDate ≤ endDate then
              allEvents ++ [extractMinimalEventData now issueType event]
            else allEvents)
        acc
      = acc ++ page.filterMap (pageEventProjection now issueType startDate endDate) := by
  intro page
  induction page with
  | nil => intro acc; simp
  | cons ev page ih =>
    intro acc
    rw [List.foldl_cons, List.filterMap_cons]
    cases hd : jsOptOrNat ev.dateCreated ev.dateReceived with
    | none =>
      simp only [pageEventProjection, hd]
      rw [ih]
    | some eventDate =>
      by_cases hin : startDate ≤ eventDate ∧ eventDate ≤ endDate
      · simp only [pageEventProjection, hd, if_pos hin]
        rw [ih]
        simp
      · simp only [pageEventProjection, hd, if_neg hin]
        rw [ih]

theorem filterPageEvents_eq_filterMap (now : Nat) (issueType : String)
    (startDate endDate : Nat) (page : List RawEvent) :
    filterPageEvents now issueType startDate endDate page
      = page.filterMap (pageEventProjection now issueType startDate endDate) := by
  unfold filterPageEvents
  rw [filterPageEvents_foldl_general now issueType startDate endDate page []]
  simp

/-- C10.  For every page of upstream events processed by the fetcher, an
event with neither a `dateCreated` nor a `dateReceived` value is silently
excluded — filtering a page down to its dated events changes nothing — and
every event that ends up in the persisted chunk has a timestamp that was
compared against (and lies within) the window's bounds. -/
theorem c10_undated_events_never_persisted (now : Nat) (issueType : String)
    (pages : List (List RawEvent)) (startDate endDate : Nat) :
    (∀ page : List RawEvent,
      filterPageEvents now issueType startDate endDate
          (page.filter
            (fun ev => (jsOptOrNat ev.dateCreated ev.dateReceived).isSome))
        = filterPageEvents now issueType startDate endDate page)
    ∧ (∀ m ∈ fetchDateRangeChunk now issueType (Except.ok pages) startDate endDate,
        startDate ≤ m.timestamp ∧ m.timestamp ≤ endDate) := by
  constructor
  · intro page
    rw [filterPageEvents_eq_filterMap, filterPageEvents_eq_filterMap]
    induction page with
    | nil => rfl
    | cons ev page ih =>
      rw [List.filter_cons]
      cases hd : jsOptOrNat ev.dateCreated ev.dateReceived with
      | none =>
        have hnone : pageEventProjection now issueType startDate endDate ev = none := by
          simp [pageEventProjection, hd]
        simp only [hd, Option.isSome_none, Bool.false_eq_true, if_neg,
          List.filterMap_cons, hnone]
        exact ih
      | some eventDate =>
        simp only [hd, Option.isSome_some, if_pos, List.filterMap_cons]
        cases pageEventProjection now issueType startDate endDate ev <;>
          simp [ih]
  · have hpage : ∀ (page : List RawEvent) (m : MinimalEvent),
        m ∈ filterPageEvents now issueType startDate endDate page →
        startDate ≤ m.timestamp ∧ m.timestamp ≤ endDate := by
      intro page m hm
      rw [filterPageEvents_eq_filterMap] at hm
      obtain ⟨ev, _, hf⟩ := List.mem_filterMap.mp hm
      cases hd : jsOptOrNat ev.dateCreated ev.dateReceived with
      | none => simp [pageEventProjection, hd] at hf
      | some eventDate =>
        simp only [pageEventProjection, hd] at hf
        by_cases hin : startDate ≤ eventDate ∧ eventDate ≤ endDate
        · rw [if_pos hin] at hf
          have hm2 : m = extractMinimalEventData now issueType ev :=
            Option.some.inj hf.symm
          rw [hm2, extract_timestamp_of_date now issueType ev eventDate hd]
          exact hin
        · rw [if_neg hin] at hf
          exact absurd hf (by simp)
    intro m hm
    unfold fetchDateRangeChunk at hm
    induction pages with
    | nil => exact absurd hm (by simp [processPages])
    | cons page rest ih =>
      simp only [processPages] at hm
      by_cases hemp : page.isEmpty
      · rw [if_pos hemp] at hm
        exact hpage page m hm
      · rw [if_neg hemp] at hm
        rcases List.mem_append.mp hm with h | h
        · exact hpage page m h
        · exact ih h

/-- Witness for `c10_undated_events_never_persisted` on a one-page fetch
containing a dated in-range event. -/
theorem c10_undated_events_witness :
    (0 : Nat) ≤
        (MinimalEvent.mk 3 none "anonymous" none none none none none).timestamp
    ∧ (MinimalEvent.mk 3 none "anonymous" none none none none none).timestamp
        ≤ 10 :=
  (c10_undated_events_never_persisted 0 "payment_error"
      [[⟨none, none, some 3, none, none, []⟩]] 0 10).2
    (MinimalEvent.mk 3 none "anonymous" none none none none none) (by decide)

/-! ### Aggregator: set and first-seen lemmas -/

theorem setAdd_mem (l : List String) (x y : String) :
    y ∈ setAdd l x ↔ y ∈ l ∨ y = x := by
  unfold setAdd
  split_ifs with h
  · constructor
    · exact Or.inl
    · rintro (hy | rfl)
      · exact hy
      · exact h
  · simp

theorem setAdd_nodup (l : List String) (x : String) (h : l.Nodup) :
    (setAdd l x).Nodup := by
  unfold setAdd
  split_ifs with hx
  · exact h
  · simp [List.nodup_append, h, hx]

theorem foldl_setAdd_mem :
    ∀ (l acc : List String) (y : String),
      y ∈ l.foldl setAdd acc ↔ y ∈ acc ∨ y ∈ l := by
  intro l
  induction l with
  | nil => intro acc y; simp
  | cons x xs ih =>
    intro acc y
    rw [List.foldl_cons, ih, setAdd_mem]
    simp only [List.mem_cons]
    constructor
    · rintro ((h | rfl) | h)
      · exact Or.inl h
      · exact Or.inr (Or.inl rfl)
      · exact Or.inr (Or.inr h)
    · rintro (h | rfl | h)
      · exact Or.inl (Or.inl h)
      · exact Or.inl (Or.inr rfl)
      · exact Or.inr h

theorem foldl_setAdd_nodup :
    ∀ (l acc : List String), acc.Nodup → (l.foldl setAdd acc).Nodup := by
  intro l
  induction l with
  | nil => intro acc h; simpa using h
  | cons x xs ih =>
    intro acc h
    exact ih _ (setAdd_nodup acc x h)

theorem firstSeen_mem (l : List String) (y : String) :
    y ∈ firstSeen l ↔ y ∈ l := by
  unfold firstSeen
  rw [foldl_setAdd_mem]
  simp

theorem firstSeen_nodup (l : List String) : (firstSeen l).Nodup :=
  foldl_setAdd_nodup l [] List.nodup_nil

theorem firstSeen_append_one (l : List String) (x : String) :
    firstSeen (l ++ [x]) = setAdd (firstSeen l) x := by
  unfold firstSeen
  rw [List.foldl_append]
  rfl

/-- `firstSeen` is the list of distinct elements, so its length is the
number of distinct elements (the cardinality `dedup` measures). -/
theorem firstSeen_length_dedup (l : List String) :
    (firstSeen l).length = l.dedup.length :=
  List.Perm.length_eq
    ((List.perm_ext_iff_of_nodup (firstSeen_nodup l) l.nodup_dedup).mpr
      (fun y => by rw [firstSeen_mem, List.mem_dedup]))

/-! ### Aggregator: stable sort lemmas -/

theorem insertByCountDesc_perm (x : ReasonEntry) (l : List ReasonEntry) :
    List.Perm (insertByCountDesc x l) (x :: l) := by
  induction l with
  | nil => exact List.Perm.refl _
  | cons y ys ih =>
    unfold insertByCountDesc
    split_ifs with h
    · exact (ih.cons y).trans (List.Perm.swap x y ys)
    · exact List.Perm.refl _

theorem insertByCountDesc_sorted (x : ReasonEntry) (l : List ReasonEntry)
    (h : l.Pairwise (fun a b => b.count ≤ a.count)) :
    (insertByCountDesc x l).Pairwise (fun a b => b.count ≤ a.count) := by
  induction l with
  | nil => simp [insertByCountDesc]
  | cons y ys ih =>
    rw [List.pairwise_cons] at h
    unfold insertByCountDesc
    split_ifs with hxy
    · rw [List.pairwise_cons]
      refine ⟨?_, ih h.2⟩
      intro z hz
      rcases List.mem_cons.mp ((insertByCountDesc_perm x ys).mem_iff.mp hz) with
        rfl | hz
      · omega
      · exact h.1 z hz
    · rw [List.pairwise_cons]
      refine ⟨?_, List.pairwise_cons.mpr h⟩
      intro z hz
      rcases List.mem_cons.mp hz with rfl | hz
      · omega
      · have := h.1 z hz
        omega

theorem sortByCountDesc_perm (l : List ReasonEntry) :
    List.Perm (sortByCountDesc l) l := by
  induction l with
  | nil => exact List.Perm.refl _
  | cons x xs ih =>
    exact (insertByCountDesc_perm x (sortByCountDesc xs)).trans (ih.cons x)

theorem sortByCountDesc_sorted (l : List ReasonEntry) :
    (sortByCountDesc l).Pairwise (fun a b => b.count ≤ a.count) := by
  induction l with
  | nil => simp [sortByCountDesc]
  | cons x xs ih => exact insertByCountDesc_sorted x _ ih

theorem insertByCountDesc_filter (x : ReasonEntry) (l : List ReasonEntry)
    (k : Nat) :
    (insertByCountDesc x l).filter (fun en => decide (en.count = k))
      = if x.count = k then
          x :: l.filter (fun en => decide (en.count = k))
        else l.filter (fun en => decide (en.count = k)) := by
  induction l with
  | nil =>
    unfold insertByCountDesc
    rw [List.filter_cons]
    split_ifs with h <;> simp_all
  | cons y ys ih =>
    by_cases hxy : x.count < y.count
    · have hstep : insertByCountDesc x (y :: ys) = y :: insertByCountDesc x ys := by
        show (if x.count < y.count then y :: insertByCountDesc x ys
          else x :: y :: ys) = _
        rw [if_pos hxy]
      rw [hstep, List.filter_cons, ih]
      by_cases hx : x.count = k
      · have hy : ¬ y.count = k := by omega
        rw [if_pos hx, if_pos hx, List.filter_cons]
        simp [hy]
      · rw [if_neg hx, if_neg hx, List.filter_cons]
    · have hstep : insertByCountDesc x (y :: ys) = x :: y :: ys := by
        show (if x.count < y.count then y :: insertByCountDesc x ys
          else x :: y :: ys) = _
        rw [if_neg hxy]
      rw [hstep, List.filter_cons]
      by_cases hx : x.count = k
      · rw [if_pos hx]
        simp [hx]
      · rw [if_neg hx]
        simp [hx]

theorem sortByCountDesc_filter (l : List ReasonEntry) (k : Nat) :
    (sortByCountDesc l).filter (fun en => decide (en.count = k))
      = l.filter (fun en => decide (en.count = k)) := by
  induction l with
  | nil => rfl
  | cons x xs ih =>
    show (insertByCountDesc x (sortByCountDesc xs)).filter _ = _
    rw [insertByCountDesc_filter, List.filter_cons]
    by_cases hx : x.count = k
    · rw [if_pos hx, ih]
      simp [hx]
    · rw [if_neg hx, ih]
      simp [hx]

/-! ### Aggregator: grouping lemmas -/

theorem addEvent_keys (r u : String) :
    ∀ acc : List ReasonAcc,
      (addEvent acc r u).map (fun a => a.reason)
        = setAdd (acc.map (fun a => a.reason)) r := by
  intro acc
  induction acc with
  | nil => simp [addEvent, setAdd]
  | cons a rest ih =>
    by_cases har : a.reason = r
    · have hstep : addEvent (a :: rest) r u
          = ⟨a.reason, a.count + 1, setAdd a.users u⟩ :: rest := by
        show (if a.reason = r then _ else _) = _
        rw [if_pos har]
      rw [hstep]
      have hmem : r ∈ (a :: rest).map (fun a => a.reason) := by
        simp only [List.map_cons, List.mem_cons]
        exact Or.inl har.symm
      unfold setAdd
      rw [if_pos hmem]
      simp
    · have hstep : addEvent (a :: rest) r u = a :: addEvent rest r u := by
        show (if a.reason = r then _ else _) = _
        rw [if_neg har]
      rw [hstep, List.map_cons, ih]
      by_cases hmem : r ∈ rest.map (fun a => a.reason)
      · have h1 : setAdd (rest.map (fun a => a.reason)) r
            = rest.map (fun a => a.reason) := by
          unfold setAdd
          rw [if_pos hmem]
        have h2 : setAdd ((a :: rest).map (fun a => a.reason)) r
            = (a :: rest).map (fun a => a.reason) := by
          unfold setAdd
          rw [if_pos]
          simp only [List.map_cons, List.mem_cons]
          exact Or.inr hmem
        rw [h1, h2, List.map_cons]
      · have h1 : setAdd (rest.map (fun a => a.reason)) r
            = rest.map (fun a => a.reason) ++ [r] := by
          unfold setAdd
          rw [if_neg hmem]
        have h2 : setAdd ((a :: rest).map (fun a => a.reason)) r
            = (a :: rest).map (fun a => a.reason) ++ [r] := by
          unfold setAdd
          rw [if_neg]
          simp only [List.map_cons, List.mem_cons]
          rintro (h | h)
          · exact har h.symm
          · exact hmem h
        rw [h1, h2, List.map_cons]
        rfl

theorem addEvent_spec (r u : String) :
    ∀ acc : List ReasonAcc, (acc.map (fun a => a.reason)).Nodup →
      ∀ a ∈ addEvent acc r u,
        (a ∈ acc ∧ a.reason ≠ r)
        ∨ (∃ b, b ∈ acc ∧ b.reason = r
            ∧ a = ⟨b.reason, b.count + 1, setAdd b.users u⟩)
        ∨ (r ∉ acc.map (fun a => a.reason) ∧ a = ⟨r, 1, setAdd [] u⟩) := by
  intro acc
  induction acc with
  | nil =>
    intro _ a ha
    simp only [addEvent, List.mem_singleton] at ha
    exact Or.inr (Or.inr ⟨by simp, ha⟩)
  | cons b rest ih =>
    intro hnd a ha
    rw [List.map_cons, List.nodup_cons] at hnd
    by_cases hbr : b.reason = r
    · have hstep : addEvent (b :: rest) r u
          = ⟨b.reason, b.count + 1, setAdd b.users u⟩ :: rest := by
        show (if b.reason = r then _ else _) = _
        rw [if_pos hbr]
      rw [hstep] at ha
      rcases List.mem_cons.mp ha with rfl | ha
      · exact Or.inr (Or.inl ⟨b, List.mem_cons_self b rest, hbr, rfl⟩)
      · refine Or.inl ⟨List.mem_cons_of_mem b ha, ?_⟩
        intro har
        exact hnd.1 (by
          rw [hbr, ← har]
          exact List.mem_map_of_mem (fun a => a.reason) ha)
    · have hstep : addEvent (b :: rest) r u = b :: addEvent rest r u := by
        show (if b.reason = r then _ else _) = _
        rw [if_neg hbr]
      rw [hstep] at ha
      rcases List.mem_cons.mp ha with rfl | ha
      · exact Or.inl ⟨List.mem_cons_self a rest, hbr⟩
      · rcases ih hnd.2 a ha with ⟨hmem, hne⟩ | ⟨c, hc, hcr, rfl⟩ | ⟨hnm, rfl⟩
        · exact Or.inl ⟨List.mem_cons_of_mem b hmem, hne⟩
        · exact Or.inr (Or.inl ⟨c, List.mem_cons_of_mem b hc, hcr, rfl⟩)
        · refine Or.inr (Or.inr ⟨?_, rfl⟩)
          simp only [List.map_cons, List.mem_cons]
          rintro (h | h)
          · exact hbr h.symm
          · exact hnm h

/-- The grouping accumulator is accurate for a prefix of the event stream:
each entry's `count` is the number of prefix events with that (normalised)
reason, and its `users` set is the distinct user ids of those events in
first-seen order. -/
def accurate (processed : List MinimalEvent) (acc : List ReasonAcc) : Prop :=
  ∀ a ∈ acc,
    a.count
        = (processed.filter
            (fun ev => decide (errorReasonOf ev = a.reason))).length
    ∧ a.users
        = firstSeen
            ((processed.filter
              (fun ev => decide (errorReasonOf ev = a.reason))).map
              (fun ev => ev.userId))

theorem addEvent_accurate (processed : List MinimalEvent)
    (acc : List ReasonAcc) (ev : MinimalEvent)
    (hacc : accurate processed acc)
    (hkeys : acc.map (fun a => a.reason)
      = firstSeen (processed.map errorReasonOf)) :
    accurate (processed ++ [ev]) (addEvent acc (errorReasonOf ev) ev.userId) := by
  have hnd : (acc.map (fun a => a.reason)).Nodup := by
    rw [hkeys]
    exact firstSeen_nodup _
  intro a ha
  rcases addEvent_spec (errorReasonOf ev) ev.userId acc hnd a ha with
    ⟨hmem, hne⟩ | ⟨b, hb, hbr, rfl⟩ | ⟨hnm, rfl⟩
  · obtain ⟨hc, hu⟩ := hacc a hmem
    have hskip : ([ev]).filter (fun e => decide (errorReasonOf e = a.reason))
        = [] := by
      simp only [List.filter_cons, List.filter_nil]
      rw [if_neg]
      simp only [decide_eq_true_eq]
      exact fun h => hne h.symm
    rw [List.filter_append, hskip, List.append_nil]
    exact ⟨hc, hu⟩
  · obtain ⟨hc, hu⟩ := hacc b hb
    have hkeep : ([ev]).filter (fun e => decide (errorReasonOf e = b.reason))
        = [ev] := by
      simp [hbr]
    constructor
    · show b.count + 1 = _
      rw [List.filter_append, hkeep, List.length_append, hc]
      rfl
    · show setAdd b.users ev.userId = _
      rw [List.filter_append, hkeep, List.map_append, hu]
      exact (firstSeen_append_one _ _).symm
  · have hempty : processed.filter
        (fun e => decide (errorReasonOf e = errorReasonOf ev)) = [] := by
      rw [List.filter_eq_nil_iff]
      intro e he
      simp only [decide_eq_true_eq]
      intro heq
      apply hnm
      rw [hkeys, firstSeen_mem]
      rw [← heq]
      exact List.mem_map_of_mem errorReasonOf he
    have hkeep : ([ev]).filter
        (fun e => decide (errorReasonOf e = errorReasonOf ev)) = [ev] := by
      simp
    constructor
    · show 1 = _
      rw [List.filter_append, hempty, List.nil_append, hkeep]
      rfl
    · show setAdd [] ev.userId = _
      rw [List.filter_append, hempty, List.nil_append, hkeep]
      rfl

theorem groupReasons_fold_accurate :
    ∀ (evs processed : List MinimalEvent) (acc : List ReasonAcc),
      accurate processed acc →
      acc.map (fun a => a.reason) = firstSeen (processed.map errorReasonOf) →
      accurate (processed ++ evs)
          (evs.foldl (fun acc ev => addEvent acc (errorReasonOf ev) ev.userId) acc)
      ∧ (evs.foldl
            (fun acc ev => addEvent acc (errorReasonOf ev) ev.userId) acc).map
            (fun a => a.reason)
          = firstSeen ((processed ++ evs).map errorReasonOf) := by
  intro evs
  induction evs with
  | nil =>
    intro processed acc h1 h2
    constructor
    · simpa using h1
    · simpa using h2
  | cons ev evs ih =>
    intro processed acc h1 h2
    have h1' := addEvent_accurate processed acc ev h1 h2
    have h2' : (addEvent acc (errorReasonOf ev) ev.userId).map (fun a => a.reason)
        = firstSeen ((processed ++ [ev]).map errorReasonOf) := by
      rw [addEvent_keys, h2, List.map_append, List.map_cons, List.map_nil,
        firstSeen_append_one]
    have h := ih (processed ++ [ev]) _ h1' h2'
    rw [List.foldl_cons]
    constructor
    · have := h.1
      simpa [List.append_assoc] using this
    · have := h.2
      simpa [List.append_assoc] using this

theorem groupStep_ok_eq (acc : List ReasonAcc) (r u : String)
    (acc2 : List ReasonAcc) (h : groupStep acc r u = Except.ok acc2) :
    acc2 = addEvent acc r u := by
  unfold groupStep at h
  split_ifs at h
  all_goals exact (Except.ok.inj h).symm

theorem groupStep_ok_no_proto (acc : List ReasonAcc) (r u : String)
    (acc2 : List ReasonAcc)
    (hkeys : ∀ s ∈ acc.map (fun a => a.reason), s ∉ protoKeys)
    (h : groupStep acc r u = Except.ok acc2) : r ∉ protoKeys := by
  unfold groupStep at h
  split_ifs at h with h1 h2
  all_goals first
    | exact hkeys r h1
    | exact h2

/-- A successful run of the grouping loop computes exactly the pure
update-or-append fold over the own-entry list (both `ok` branches of
`groupStep` return `addEvent`). -/
theorem groupReasonsGo_ok_eq_foldl :
    ∀ (evs : List MinimalEvent) (acc g : List ReasonAcc),
      groupReasonsGo acc evs = Except.ok g →
      g = evs.foldl (fun acc ev => addEvent acc (errorReasonOf ev) ev.userId)
            acc := by
  intro evs
  induction evs with
  | nil =>
    intro acc g h
    simp only [groupReasonsGo] at h
    cases h
    rfl
  | cons ev evs ih =>
    intro acc g h
    cases hstep : groupStep acc (errorReasonOf ev) ev.userId with
    | error e =>
      have : groupReasonsGo acc (ev :: evs) = Except.error e := by
        simp only [groupReasonsGo, hstep]
      rw [this] at h
      exact absurd h (by simp)
    | ok acc2 =>
      have hgo : groupReasonsGo acc (ev :: evs) = groupReasonsGo acc2 evs := by
        simp only [groupReasonsGo, hstep]
      rw [hgo] at h
      rw [List.foldl_cons, ← groupStep_ok_eq acc _ _ acc2 hstep]
      exact ih acc2 g h

/-- A successful run of the grouping loop implies no event reason collided
with an inherited `Object.prototype` property (any such reason makes
`groupStep` throw). -/
theorem groupReasonsGo_ok_no_proto :
    ∀ (evs : List MinimalEvent) (acc g : List ReasonAcc),
      (∀ s ∈ acc.map (fun a => a.reason), s ∉ protoKeys) →
      groupReasonsGo acc evs = Except.ok g →
      ∀ ev ∈ evs, errorReasonOf ev ∉ protoKeys := by
  intro evs
  induction evs with
  | nil =>
    intro acc g _ _ ev hev
    simp at hev
  | cons ev0 evs ih =>
    intro acc g hkeys h ev hev
    cases hstep : groupStep acc (errorReasonOf ev0) ev0.userId with
    | error e =>
      have : groupReasonsGo acc (ev0 :: evs) = Except.error e := by
        simp only [groupReasonsGo, hstep]
      rw [this] at h
      exact absurd h (by simp)
    | ok acc2 =>
      have hgo : groupReasonsGo acc (ev0 :: evs) = groupReasonsGo acc2 evs := by
        simp only [groupReasonsGo, hstep]
      rw [hgo] at h
      have hr0 := groupStep_ok_no_proto acc _ _ acc2 hkeys hstep
      have hacc2 : ∀ s ∈ acc2.map (fun a => a.reason), s ∉ protoKeys := by
        have he := groupStep_ok_eq acc _ _ acc2 hstep
        subst he
        intro s hs
        rw [addEvent_keys] at hs
        rcases (setAdd_mem _ _ _).mp hs with hs | rfl
        · exact hkeys s hs
        · exact hr0
      rcases List.mem_cons.mp hev with rfl | hev
      · exact hr0
      · exact ih acc2 g hacc2 h ev hev

/-! ### Object.entries enumeration order -/

theorem insertByIndexAsc_perm (x : ReasonAcc) (l : List ReasonAcc) :
    List.Perm (insertByIndexAsc x l) (x :: l) := by
  induction l with
  | nil => exact List.Perm.refl _
  | cons y ys ih =>
    unfold insertByIndexAsc
    split_ifs with h
    · exact (ih.cons y).trans (List.Perm.swap x y ys)
    · exact List.Perm.refl _

theorem insertByIndexAsc_sorted (x : ReasonAcc) (l : List ReasonAcc)
    (h : l.Pairwise
      (fun a b => digitsToNat a.reason.data ≤ digitsToNat b.reason.data)) :
    (insertByIndexAsc x l).Pairwise
      (fun a b => digitsToNat a.reason.data ≤ digitsToNat b.reason.data) := by
  induction l with
  | nil => simp [insertByIndexAsc]
  | cons y ys ih =>
    rw [List.pairwise_cons] at h
    unfold insertByIndexAsc
    split_ifs with hxy
    · rw [List.pairwise_cons]
      refine ⟨?_, ih h.2⟩
      intro z hz
      rcases List.mem_cons.mp ((insertByIndexAsc_perm x ys).mem_iff.mp hz) with
        rfl | hz
      · exact hxy
      · exact h.1 z hz
    · rw [List.pairwise_cons]
      refine ⟨?_, List.pairwise_cons.mpr h⟩
      intro z hz
      rcases List.mem_cons.mp hz with rfl | hz
      · omega
      · have := h.1 z hz
        omega

theorem sortByIndexAsc_perm (l : List ReasonAcc) :
    List.Perm (sortByIndexAsc l) l := by
  induction l with
  | nil => exact List.Perm.refl _
  | cons x xs ih =>
    exact (insertByIndexAsc_perm x (sortByIndexAsc xs)).trans (ih.cons x)

theorem sortByIndexAsc_sorted (l : List ReasonAcc) :
    (sortByIndexAsc l).Pairwise
      (fun a b => digitsToNat a.reason.data ≤ digitsToNat b.reason.data) := by
  induction l with
  | nil => simp [sortByIndexAsc]
  | cons x xs ih => exact insertByIndexAsc_sorted x _ ih

/-- `Object.entries` reorders but neither adds nor drops entries. -/
theorem jsObjectEntries_perm (g : List ReasonAcc) :
    List.Perm (jsObjectEntries g) g := by
  unfold jsObjectEntries
  exact ((sortByIndexAsc_perm _).append (List.Perm.refl _)).trans
    (List.filter_append_perm _ g)

/-- C8 (amended).  For every event list whose normalised reasons avoid the
keys inherited from `Object.prototype` (so the grouping succeeds with some
own-entry list `g`), `processPaymentErrors` groups events by error-reason
string after collapsing every reason ending in
`"is not a valid card number"` into the single canonical bucket, reports
per group the total event count and the number of distinct `userId`
values, and returns the groups sorted descending by event count with ties
retaining `Object.entries` enumeration order — array-index-like reason
strings first in ascending numeric order, then the remaining reasons in
first-seen insertion order (`g` itself is in first-seen order); a reason
colliding with an inherited `Object.prototype` property instead makes the
aggregation throw.  On the reasons
`["Card XXXX is not a valid card number", "Insufficient Funds",
"Card YYYY is not a valid card number"]` it produces the grouped bucket
with count 2 first and `Insufficient Funds` with count 1 second. -/
theorem c8_aggregator_entries_order (events : List MinimalEvent)
    (g : List ReasonAcc) (hg : groupReasons events = Except.ok g) :
    processPaymentErrors events
        = Except.ok
            (sortByCountDesc ((jsObjectEntries g).map
              (fun a => ⟨a.reason, a.count, a.users.length⟩)))
    ∧ (sortByCountDesc ((jsObjectEntries g).map
          (fun a => (⟨a.reason, a.count, a.users.length⟩ : ReasonEntry)))).Pairwise
        (fun a b => b.count ≤ a.count)
    ∧ List.Perm
        (sortByCountDesc ((jsObjectEntries g).map
          (fun a => (⟨a.reason, a.count, a.users.length⟩ : ReasonEntry))))
        (g.map (fun a => ⟨a.reason, a.count, a.users.length⟩))
    ∧ (∀ k : Nat,
        (sortByCountDesc ((jsObjectEntries g).map
            (fun a => (⟨a.reason, a.count, a.users.length⟩ : ReasonEntry)))).filter
            (fun en => decide (en.count = k))
          = ((jsObjectEntries g).map
              (fun a => (⟨a.reason, a.count, a.users.length⟩ : ReasonEntry))).filter
              (fun en => decide (en.count = k)))
    ∧ jsObjectEntries g
        = sortByIndexAsc (g.filter (fun a => jsArrayIndexKey a.reason))
          ++ g.filter (fun a => !jsArrayIndexKey a.reason)
    ∧ (sortByIndexAsc (g.filter (fun a => jsArrayIndexKey a.reason))).Pairwise
        (fun a b => digitsToNat a.reason.data ≤ digitsToNat b.reason.data)
    ∧ g.map (fun a => a.reason) = firstSeen (events.map errorReasonOf)
    ∧ (∀ ev ∈ events, errorReasonOf ev ∉ protoKeys)
    ∧ (∀ en ∈ sortByCountDesc ((jsObjectEntries g).map
          (fun a => (⟨a.reason, a.count, a.users.length⟩ : ReasonEntry))),
        en.count
            = (events.filter
                (fun ev => decide (errorReasonOf ev = en.reason))).length
        ∧ en.uniqueUsers
            = ((events.filter
                (fun ev => decide (errorReasonOf ev = en.reason))).map
                (fun ev => ev.userId)).dedup.length)
    ∧ processPaymentErrors
        [⟨0, none, "u1", some "Card XXXX is not a valid card number",
            none, none, none, none⟩,
         ⟨0, none, "u2", some "Insufficient Funds", none, none, none, none⟩,
         ⟨0, none, "u3", some "Card YYYY is not a valid card number",
            none, none, none, none⟩]
      = Except.ok [⟨invalidCardNumberKey, 2, 2⟩, ⟨"Insufficient Funds", 1, 1⟩] := by
  have hfold : g = events.foldl
      (fun acc ev => addEvent acc (errorReasonOf ev) ev.userId) [] :=
    groupReasonsGo_ok_eq_foldl events [] g hg
  have hq := groupReasons_fold_accurate events [] []
    (by intro a ha; simp at ha) (by rfl)
  have hacc : accurate events g := by
    rw [hfold]
    have := hq.1
    simpa using this
  have hkeys : g.map (fun a => a.reason) = firstSeen (events.map errorReasonOf) := by
    rw [hfold]
    have := hq.2
    simpa using this
  refine ⟨?_, sortByCountDesc_sorted _, ?_, fun k => sortByCountDesc_filter _ k,
    rfl, sortByIndexAsc_sorted _, hkeys, ?_, ?_, by decide⟩
  · unfold processPaymentErrors
    rw [hg]
  · exact (sortByCountDesc_perm _).trans ((jsObjectEntries_perm g).map _)
  · exact groupReasonsGo_ok_no_proto events [] g (by intro s hs; simp at hs) hg
  · intro en hen
    have hen2 : en ∈ (jsObjectEntries g).map
        (fun a => (⟨a.reason, a.count, a.users.length⟩ : ReasonEntry)) :=
      (sortByCountDesc_perm _).mem_iff.mp hen
    obtain ⟨a, ha, rfl⟩ := List.mem_map.mp hen2
    have hag : a ∈ g := (jsObjectEntries_perm g).mem_iff.mp ha
    obtain ⟨hc, hu⟩ := hacc a hag
    refine ⟨hc, ?_⟩
    show a.users.length = _
    rw [hu, firstSeen_length_dedup]

/-- Witness for `c8_aggregator_entries_order` at the spec scenario (the
grouping succeeds and the output is the sorted entries projection). -/
theorem c8_aggregator_witness :
    processPaymentErrors
        [⟨0, none, "u1", some "Card XXXX is not a valid card number",
            none, none, none, none⟩,
         ⟨0, none, "u2", some "Insufficient Funds", none, none, none, none⟩,
         ⟨0, none, "u3", some "Card YYYY is not a valid card number",
            none, none, none, none⟩]
      = Except.ok
          (sortByCountDesc ((jsObjectEntries
              [⟨invalidCardNumberKey, 2, ["u1", "u3"]⟩,
               ⟨"Insufficient Funds", 1, ["u2"]⟩]).map
            (fun a => ⟨a.reason, a.count, a.users.length⟩))) :=
  (c8_aggregator_entries_order
      [⟨0, none, "u1", some "Card XXXX is not a valid card number",
          none, none, none, none⟩,
       ⟨0, none, "u2", some "Insufficient Funds", none, none, none, none⟩,
       ⟨0, none, "u3", some "Card YYYY is not a valid card number",
          none, none, none, none⟩]
      [⟨invalidCardNumberKey, 2, ["u1", "u3"]⟩,
       ⟨"Insufficient Funds", 1, ["u2"]⟩]
      (by decide)).1

/-- Counterexample to C8 as stated: ties do *not* retain first-seen
insertion order for every event list.  For the tied reasons `"9"` then
`"1"` (array-index-like keys), `Object.entries` enumerates `"1"` before
`"9"` although `"9"` was seen first, and the stable sort keeps that order;
and a reason colliding with an inherited `Object.prototype` property
(`"toString"`) makes the aggregation throw instead of producing groups. -/
theorem c8_aggregator_counterexample :
    processPaymentErrors
        [⟨0, none, "u9", some "9", none, none, none, none⟩,
         ⟨0, none, "u1", some "1", none, none, none, none⟩]
      = Except.ok [⟨"1", 1, 1⟩, ⟨"9", 1, 1⟩]
    ∧ firstSeen
        ([(⟨0, none, "u9", some "9", none, none, none, none⟩ : MinimalEvent),
          ⟨0, none, "u1", some "1", none, none, none, none⟩].map errorReasonOf)
      = ["9", "1"]
    ∧ ([(⟨"1", 1, 1⟩ : ReasonEntry), ⟨"9", 1, 1⟩]
        ≠ [(⟨"9", 1, 1⟩ : ReasonEntry), ⟨"1", 1, 1⟩])
    ∧ processPaymentErrors
        [⟨0, none, "u1", some "toString", none, none, none, none⟩]
      = Except.error "TypeError: reasonData[reason].users is undefined" := by
  decide

end DLCReport
